import Mathlib

/-!
Verification of the SQL-safety validation gate in `database.py`.

Strings are modelled as `List Char` (Python `str` over the ASCII range the
guard actually handles). Each definition is a direct translation of the
corresponding Python function in `src/database.py`; the database connection
itself is modelled as an explicit oracle parameter so that the gate's pure
control flow can be reasoned about.
-/

namespace SqlGuard

/-- Coerces a Lean string literal to the `List Char` model of Python strings. -/
def pyStr (s : String) : List Char := s.data

/-- Whitespace as recognised by Python `str.strip` and the regex class `\s`
(ASCII range): space, tab, newline, carriage return, vertical tab, form feed. -/
def pyIsSpace (c : Char) : Bool :=
  c.toNat = 32 ∨ c.toNat = 9 ∨ c.toNat = 10 ∨ c.toNat = 13 ∨ c.toNat = 11 ∨ c.toNat = 12

/-- Python `str.lower` on a single character (ASCII range). -/
def pyLowerChar (c : Char) : Char :=
  if 65 ≤ c.toNat ∧ c.toNat ≤ 90 then Char.ofNat (c.toNat + 32) else c

/-- Python `str.lower` (ASCII range). -/
def pyLower (s : List Char) : List Char := s.map pyLowerChar

/-- Python `str.strip`: drop leading and trailing whitespace. -/
def pyStrip (s : List Char) : List Char :=
  ((s.dropWhile pyIsSpace).reverse.dropWhile pyIsSpace).reverse

/-- Word characters of the regex class `\w` / word-boundary test `\b`
(ASCII range): letters, digits, underscore. -/
def isWordChar (c : Char) : Bool :=
  (97 ≤ c.toNat ∧ c.toNat ≤ 122) ∨ (65 ≤ c.toNat ∧ c.toNat ≤ 90) ∨
    (48 ≤ c.toNat ∧ c.toNat ≤ 57) ∨ c.toNat = 95

/-- Characters of the identifier class `[a-zA-Z0-9_\.]` used by the table
extraction regex in `only_allowed_tables`. -/
def isIdentChar (c : Char) : Bool :=
  (97 ≤ c.toNat ∧ c.toNat ≤ 122) ∨ (65 ≤ c.toNat ∧ c.toNat ≤ 90) ∨
    (48 ≤ c.toNat ∧ c.toNat ≤ 57) ∨ c.toNat = 95 ∨ c.toNat = 46

/-- Right word-boundary test: `\b` holds after a word character iff the rest of
the text is empty or starts with a non-word character. -/
def boundaryAfter : List Char → Bool
  | [] => true
  | c :: _ => ! isWordChar c

/-- Left word-boundary test: `\b` holds before a word character iff the
previous character (if any) is a non-word character. -/
def boundaryBefore : Option Char → Bool
  | none => true
  | some c => ! isWordChar c

/-- Model of `re.match(r"^\s*kw\b", s)` for a keyword `kw` made of word
characters: after the maximal leading whitespace run, `kw` must be a prefix
followed by a word boundary. -/
def matchStartKw (kw : List Char) (s : List Char) : Bool :=
  let t := s.dropWhile pyIsSpace
  kw.isPrefixOf t && boundaryAfter (t.drop kw.length)

/-- ALLOWED_TABLES from `database.py` line 13. -/
def ALLOWED_TABLES : List (List Char) :=
  [pyStr "orders", pyStr "order_details", pyStr "products", pyStr "categories", pyStr "customers"]

/-- Keywords of READ_ONLY_PATTERNS (`database.py` line 14): each pattern is
`^\s*kw\b` for one of these keywords. -/
def READ_ONLY_KEYWORDS : List (List Char) :=
  [pyStr "select", pyStr "with", pyStr "show", pyStr "describe", pyStr "explain"]

/-- Denylist of mutating keywords scanned for by `is_read_only_sql`
(`database.py` line 62). -/
def FORBIDDEN_KEYWORDS : List (List Char) :=
  [pyStr "insert", pyStr "update", pyStr "delete", pyStr "drop", pyStr "alter",
   pyStr "truncate", pyStr "create", pyStr "grant", pyStr "revoke"]

/-- Model of Python's substring containment test `needle in hay`: some suffix
of `hay` starts with `needle`. -/
def isSubstring (needle : List Char) : List Char → Bool
  | [] => needle.isEmpty
  | c :: rest => needle.isPrefixOf (c :: rest) || isSubstring needle rest

/-- Translation of `is_read_only_sql` (`database.py` lines 57-64):
empty input is not read-only; otherwise strip and lower-case, require one of
the read-only prefixes at the start, and reject if any denylist keyword occurs
anywhere as a substring. -/
def is_read_only_sql (sql : List Char) : Bool :=
  if sql = [] then false
  else
    let s := pyLower (pyStrip sql)
    if READ_ONLY_KEYWORDS.any (fun kw => matchStartKw kw s) then
      ! FORBIDDEN_KEYWORDS.any (fun f => isSubstring f s)
    else false

/-- Model of `re.search(rf"\b{w}\b", s)` for a word `w` made entirely of word
characters, scanning left to right; `prev` is the character just before the
current position (`none` at the start of the text). -/
def wordSearchAux (w : List Char) : Option Char → List Char → Bool
  | _, [] => false
  | prev, c :: rest =>
    (boundaryBefore prev && w.isPrefixOf (c :: rest) && boundaryAfter ((c :: rest).drop w.length))
      || wordSearchAux w (some c) rest

/-- Whole-word occurrence of `w` anywhere in `s`, as `re.search(rf"\b{w}\b", s)`. -/
def wordSearch (w s : List Char) : Bool := wordSearchAux w none s

/-- Model of `re.findall(rf"\b{kw}\s+([a-zA-Z0-9_\.]+)", s)`: scan left to
right; at a position with a word boundary where `kw` is a prefix, a match
requires at least one whitespace character and then at least one identifier
character (the two classes are disjoint, so greedy matching is maximal runs);
the captured identifier run is recorded and scanning resumes after it,
otherwise scanning advances one character. `fuel` bounds the recursion and is
instantiated so it never runs out. -/
def scanTargetsAux (kw : List Char) : Nat → Option Char → List Char → List (List Char)
  | 0, _, _ => []
  | _, _, [] => []
  | fuel + 1, prev, c :: rest =>
    if boundaryBefore prev && kw.isPrefixOf (c :: rest) then
      let afterKw := (c :: rest).drop kw.length
      let ws := afterKw.takeWhile pyIsSpace
      let rest2 := afterKw.drop ws.length
      let ident := rest2.takeWhile isIdentChar
      if ws ≠ [] ∧ ident ≠ [] then
        ident :: scanTargetsAux kw fuel ident.getLast? (rest2.drop ident.length)
      else
        scanTargetsAux kw fuel (some c) rest
    else
      scanTargetsAux kw fuel (some c) rest

/-- Identifiers captured after every `kw` keyword occurrence in `s`
(`re.findall(rf"\b{kw}\s+([a-zA-Z0-9_\.]+)", s)`). -/
def extractTargets (kw s : List Char) : List (List Char) :=
  scanTargetsAux kw (s.length + 1) none s

/-- Python `name.split(".")[-1]`: the segment after the last dot (the whole
string when there is no dot). -/
def lastSegment (name : List Char) : List Char :=
  (name.reverse.takeWhile (fun c => c.toNat ≠ 46)).reverse

/-- Model of `re.sub(r"`|\"", "", ·)`: delete every backtick and double-quote
character. -/
def stripQuotes (s : List Char) : List Char :=
  s.filter (fun c => ¬ (c.toNat = 96 ∨ c.toNat = 34))

/-- Translation of `only_allowed_tables` (`database.py` lines 66-77): empty
input fails; quotes are removed from the lower-cased text; if a `from`/`join`
word occurs but no allow-listed table occurs as a whole word, fail; otherwise
every identifier captured directly after a `from` or `join` keyword must have
its final dot-segment in the allow-list. -/
def only_allowed_tables (sql : List Char) : Bool :=
  if sql = [] then false
  else
    let s := stripQuotes (pyLower sql)
    if (wordSearch (pyStr "from") s || wordSearch (pyStr "join") s)
        && ! ALLOWED_TABLES.any (fun t => wordSearch t s) then
      false
    else
      let suspects := extractTargets (pyStr "from") s ++ extractTargets (pyStr "join") s
      suspects.all (fun name => decide (lastSegment name ∈ ALLOWED_TABLES))

/-- Scalar values that can appear in a fetched row (the Python types the
module imports and inspects: `Decimal`, `date`, `datetime`, plus ordinary
JSON-ready scalars). `vDecimal` carries the exact decimal value as a rational;
`vDate`/`vDatetime` carry the calendar fields. -/
inductive PyVal where
  | vNull : PyVal
  | vInt : Int → PyVal
  | vStr : List Char → PyVal
  | vDecimal : ℚ → PyVal
  | vDate : Nat → Nat → Nat → PyVal
  | vDatetime : Nat → Nat → Nat → Nat → Nat → Nat → PyVal
deriving DecidableEq

/-- Rows as fetched by `aiomysql.DictCursor`: association lists mapping column
names to scalar values. -/
abbrev Row : Type := List (List Char × PyVal)

/-- Behaviour of the relational store for one statement: either column names
and rows, or a connection/execution failure with a message (`aiomysql` raising
an exception whose text is the message). -/
inductive DbResponse where
  | ok : List (List Char) → List Row → DbResponse
  | fail : List Char → DbResponse

/-- Values `run_sql_async` can `return`: a rejection message dictionary
`{"message": m}` or a result dictionary `{"columns": cols, "rows": rows}`. -/
inductive RunReturn where
  | message : List Char → RunReturn
  | resultSet : List (List Char) → List Row → RunReturn
deriving DecidableEq

/-- Translation of `run_sql_async` (`database.py` lines 79-104), with the
store abstracted as an oracle `db` mapping the executed statement to a
`DbResponse`. The returned pair is the Python outcome — `Except.ok` for a
`return`, `Except.error m` for a raised `Exception(m)` — together with a flag
recording whether the gate entered the execution block (acquired, or attempted
to acquire, a database connection and sent the statement to the store). The
three rejection branches return before any connection is touched; a store
failure is re-raised as `Exception("Database error: " + msg)`. -/
def run_sql_async (db : List Char → DbResponse) (sql : List Char) :
    Except (List Char) RunReturn × Bool :=
  if sql = [] ∨ pyStrip sql = [] then
    (.ok (.message (pyStr "No SQL query provided")), false)
  else if is_read_only_sql sql = false then
    (.ok (.message (pyStr "This operation will not be performed (non-read-only query detected).")),
      false)
  else if only_allowed_tables sql = false then
    (.ok (.message (pyStr "Query references invalid or disallowed tables.")), false)
  else
    match db sql with
    | .ok cols rows => (.ok (.resultSet cols rows), true)
    | .fail e => (.error (pyStr "Database error: " ++ e), true)

/-- Stub oracle used in closed test statements. -/
def dbEmpty : List Char → DbResponse := fun _ => .ok [] []

/-- Discriminates the Python outcome: `true` iff the call raised an exception
rather than returning a value. -/
def raisesException (r : Except (List Char) RunReturn × Bool) : Bool :=
  match r.1 with
  | .error _ => true
  | .ok _ => false

/-! Supporting lemmas. -/

/-- Round trip of `Char.ofNat` below the surrogate range. -/
theorem toNat_ofNat_char (n : Nat) (h : n < 55296) : (Char.ofNat n).toNat = n := by
  have hv : Nat.isValidChar n := Or.inl h
  simp [Char.ofNat, Char.ofNatAux, Char.toNat, hv, UInt32.toNat, BitVec.toNat_ofNatLt]

/-- Lower-casing a character preserves whitespace-ness. -/
theorem pyIsSpace_pyLowerChar (c : Char) : pyIsSpace (pyLowerChar c) = pyIsSpace c := by
  by_cases h : 65 ≤ c.toNat ∧ c.toNat ≤ 90
  · have h2 : (Char.ofNat (c.toNat + 32)).toNat = c.toNat + 32 :=
      toNat_ofNat_char _ (by omega)
    simp only [pyLowerChar, if_pos h, pyIsSpace, h2, decide_eq_decide]
    omega
  · simp [pyLowerChar, h]

/-- Stripping commutes with lower-casing. -/
theorem pyStrip_pyLower (s : List Char) : pyStrip (pyLower s) = pyLower (pyStrip s) := by
  have hps : (pyIsSpace ∘ pyLowerChar) = pyIsSpace := funext pyIsSpace_pyLowerChar
  unfold pyStrip pyLower
  rw [List.dropWhile_map, hps, ← List.map_reverse, List.dropWhile_map, hps, ← List.map_reverse]

/-- Correctness of the substring test. -/
theorem isSubstring_iff (needle s : List Char) : isSubstring needle s = true ↔ needle <:+: s := by
  induction s with
  | nil => simp [isSubstring, List.isEmpty_iff, List.infix_nil]
  | cons c rest ih =>
    simp [isSubstring, List.infix_cons_iff, List.isPrefixOf_iff_prefix, ih]

/-- A substring none of whose characters satisfy `p` survives `dropWhile p`. -/
theorem infix_dropWhile_of_not (p : Char → Bool) (kw s : List Char)
    (hkw : ∀ c ∈ kw, p c = false) (hne : kw ≠ []) (h : kw <:+: s) :
    kw <:+: s.dropWhile p := by
  obtain ⟨a, b, hab⟩ := h
  subst hab
  induction a with
  | nil =>
    obtain ⟨k, kt, rfl⟩ : ∃ k kt, kw = k :: kt := by
      cases kw with
      | nil => exact absurd rfl hne
      | cons k kt => exact ⟨k, kt, rfl⟩
    rw [List.nil_append, List.cons_append, List.dropWhile_cons]
    rw [hkw k (by simp)]
    exact ⟨[], b, by simp⟩
  | cons x a' ih =>
    rw [List.cons_append, List.cons_append, List.dropWhile_cons]
    by_cases hx : p x = true
    · simpa [hx] using ih
    · simp only [hx, if_neg]
      exact ⟨x :: a', b, by simp⟩

/-- A whitespace-free substring survives `pyStrip`. -/
theorem infix_pyStrip (kw s : List Char) (hkw : ∀ c ∈ kw, pyIsSpace c = false)
    (hne : kw ≠ []) (h : kw <:+: s) : kw <:+: pyStrip s := by
  unfold pyStrip
  have h1 : kw <:+: s.dropWhile pyIsSpace := infix_dropWhile_of_not _ _ _ hkw hne h
  have h2 : kw.reverse <:+: (s.dropWhile pyIsSpace).reverse := List.reverse_infix.mpr h1
  have h3 : kw.reverse <:+: (s.dropWhile pyIsSpace).reverse.dropWhile pyIsSpace :=
    infix_dropWhile_of_not _ _ _ (fun c hc => hkw c (List.mem_reverse.mp hc))
      (by simpa using hne) h2
  simpa using List.reverse_infix.mpr h3

/-- Whitespace characters are not word characters. -/
theorem isWordChar_eq_false_of_space (c : Char) (h : pyIsSpace c = true) :
    isWordChar c = false := by
  simp only [pyIsSpace, decide_eq_true_eq] at h
  simp only [isWordChar, decide_eq_false_iff_not]
  omega

/-- The dot is not a word character. -/
theorem isWordChar_eq_false_of_dot (c : Char) (h : c.toNat = 46) :
    isWordChar c = false := by
  simp only [isWordChar, decide_eq_false_iff_not]
  omega

/-- Word characters form a subclass of identifier characters. -/
theorem isWordChar_eq_false_of_not_ident (c : Char) (h : isIdentChar c = false) :
    isWordChar c = false := by
  simp only [isIdentChar, decide_eq_false_iff_not] at h
  simp only [isWordChar, decide_eq_false_iff_not]
  omega

/-- Dropping as many elements as `takeWhile` keeps is `dropWhile`. -/
theorem drop_length_takeWhile (p : Char → Bool) (l : List Char) :
    l.drop (l.takeWhile p).length = l.dropWhile p := by
  induction l with
  | nil => rfl
  | cons c t ih =>
    by_cases h : p c = true
    · simpa [List.takeWhile_cons, List.dropWhile_cons, h] using ih
    · simp [List.takeWhile_cons, List.dropWhile_cons, h]

/-- The element exposed by `dropWhile` fails the predicate. -/
theorem eq_false_of_dropWhile_cons {p : Char → Bool} {l t : List Char} {d : Char}
    (h : l.dropWhile p = d :: t) : p d = false := by
  induction l with
  | nil => simp at h
  | cons c r ih =>
    rw [List.dropWhile_cons] at h
    by_cases hc : p c = true
    · rw [if_pos hc] at h
      exact ih h
    · rw [if_neg hc] at h
      injection h with h1 h2
      subst h1
      simpa using hc

/-- Splitting a string at its final dot segment: the discarded prefix is
either empty or ends in a dot. -/
theorem lastSegment_decomp (name : List Char) :
    ∃ pre, name = pre ++ lastSegment name ∧
      (pre = [] ∨ ∃ d, pre.getLast? = some d ∧ d.toNat = 46) := by
  refine ⟨(name.reverse.dropWhile (fun c => c.toNat ≠ 46)).reverse, ?_, ?_⟩
  · rw [eq_comm, lastSegment, ← List.reverse_append, List.takeWhile_append_dropWhile,
      List.reverse_reverse]
  · cases hd : name.reverse.dropWhile (fun c => c.toNat ≠ 46) with
    | nil => exact Or.inl rfl
    | cons d t =>
      refine Or.inr ⟨d, ?_, ?_⟩
      · rw [List.getLast?_reverse]
        rfl
      · have hh := eq_false_of_dropWhile_cons hd
        simpa using hh

/-- A whole-word hit in a suffix of the text lifts to the whole text. -/
theorem wordSearchAux_append_cons (w a : List Char) (c : Char) (t : List Char)
    (prev : Option Char) (h : wordSearchAux w (some c) t = true) :
    wordSearchAux w prev (a ++ c :: t) = true := by
  induction a generalizing prev with
  | nil => simp [wordSearchAux, h]
  | cons x a' ih => simp [wordSearchAux, ih (some x)]

/-- The word search succeeds on any split `a ++ w ++ b` whose left context
(the last character of `a`, or `prev` when `a` is empty) is a word boundary
and whose right context `b` starts at a word boundary. -/
theorem wordSearchAux_of_split (w a b : List Char) (prev : Option Char)
    (hw : w ≠ [])
    (hL : boundaryBefore (a.getLast?.or prev) = true)
    (hR : boundaryAfter b = true) :
    wordSearchAux w prev (a ++ w ++ b) = true := by
  induction a generalizing prev with
  | nil =>
    cases w with
    | nil => exact absurd rfl hw
    | cons wh wt =>
      have h1 : boundaryBefore prev = true := by simpa using hL
      have h2 : (wh :: wt).isPrefixOf ((wh :: wt) ++ b) = true :=
        List.isPrefixOf_iff_prefix.mpr (List.prefix_append _ b)
      have h3 : ((wh :: wt) ++ b).drop (wh :: wt).length = b := List.drop_left _ _
      rw [List.nil_append]
      rw [show (wh :: wt) ++ b = wh :: (wt ++ b) from rfl] at h2 h3 ⊢
      simp [wordSearchAux, h1, h2, h3, hR]
  | cons x a' ih =>
    have hor : (x :: a').getLast?.or prev = a'.getLast?.or (some x) := by
      cases h : a'.getLast? with
      | none =>
        have ha : a' = [] := by
          cases a' with
          | nil => rfl
          | cons y u => rw [List.getLast?_eq_getLast (y :: u) (by simp)] at h; cases h
        subst ha
        rfl
      | some l =>
        rw [show (x :: a') = [x] ++ a' from rfl, List.getLast?_append, h]
        rfl
    have hL' : boundaryBefore (a'.getLast?.or (some x)) = true := by
      rw [← hor]
      exact hL
    have hrec := ih (some x) hL'
    rw [List.append_assoc] at hrec
    simp [wordSearchAux, hrec]

/-- Soundness of the extraction scan with respect to whole-word search: the
final dot-segment of every captured identifier, when non-empty and made of
word characters, occurs as a whole word in the scanned text (the captured run
is preceded by whitespace or a dot and followed by a non-identifier
character or the end of the text). -/
theorem scan_target_wordSearch (kw : List Char) (fuel : Nat) :
    ∀ (prev : Option Char) (s name : List Char),
      name ∈ scanTargetsAux kw fuel prev s →
      lastSegment name ≠ [] →
      (∀ c ∈ lastSegment name, isWordChar c = true) →
      wordSearchAux (lastSegment name) prev s = true := by
  induction fuel with
  | zero =>
    intro prev s name hmem
    simp [scanTargetsAux] at hmem
  | succ fuel ih =>
    intro prev s name hmem hlne hword
    cases s with
    | nil => simp [scanTargetsAux] at hmem
    | cons c rest =>
      simp only [scanTargetsAux] at hmem
      by_cases hb : (boundaryBefore prev && kw.isPrefixOf (c :: rest)) = true
      · rw [if_pos hb] at hmem
        set afterKw := (c :: rest).drop kw.length with hAfterKw
        set ws := afterKw.takeWhile pyIsSpace with hWs
        set rest2 := afterKw.drop ws.length with hRest2
        set ident := rest2.takeWhile isIdentChar with hIdent
        set tail := rest2.drop ident.length with hTailDef
        have hbp : kw.isPrefixOf (c :: rest) = true := by
          have hb2 := hb
          simp only [Bool.and_eq_true] at hb2
          exact hb2.2
        obtain ⟨tl, htl⟩ := List.isPrefixOf_iff_prefix.mp hbp
        have hA : afterKw = tl := by
          rw [hAfterKw, ← htl, List.drop_left]
        have hR2 : rest2 = afterKw.dropWhile pyIsSpace := by
          rw [hRest2, hWs, drop_length_takeWhile]
        have hA2 : ws ++ rest2 = afterKw := by
          rw [hWs, hR2, List.takeWhile_append_dropWhile]
        have hT : tail = rest2.dropWhile isIdentChar := by
          rw [hTailDef, hIdent, drop_length_takeWhile]
        have hR3 : ident ++ tail = rest2 := by
          rw [hIdent, hT, List.takeWhile_append_dropWhile]
        have hKA : kw ++ afterKw = c :: rest := by
          rw [hA, htl]
        have hRbound : boundaryAfter tail = true := by
          cases h : tail with
          | nil => rfl
          | cons x xs =>
            have hx : isIdentChar x = false :=
              eq_false_of_dropWhile_cons (hT.symm.trans h)
            simp [boundaryAfter, isWordChar_eq_false_of_not_ident x hx]
        by_cases hwi : ws ≠ [] ∧ ident ≠ []
        · rw [if_pos hwi] at hmem
          rcases List.mem_cons.mp hmem with rfl | hmem'
          · obtain ⟨pre, hPre, hPreCase⟩ := lastSegment_decomp ident
            have hs : (kw ++ ws ++ pre) ++ lastSegment ident ++ tail = c :: rest := by
              calc (kw ++ ws ++ pre) ++ lastSegment ident ++ tail
                  = kw ++ (ws ++ ((pre ++ lastSegment ident) ++ tail)) := by
                    simp [List.append_assoc]
                _ = kw ++ (ws ++ (ident ++ tail)) := by rw [← hPre]
                _ = kw ++ (ws ++ rest2) := by rw [hR3]
                _ = kw ++ afterKw := by rw [hA2]
                _ = c :: rest := hKA
            have hLbound : boundaryBefore ((kw ++ ws ++ pre).getLast?.or prev) = true := by
              rcases hPreCase with rfl | ⟨d, hd, hd46⟩
              · obtain ⟨u, hu⟩ : ∃ u, ws.getLast? = some u := by
                  cases h : ws.getLast? with
                  | none =>
                    rw [List.getLast?_eq_getLast ws hwi.1] at h
                    cases h
                  | some u => exact ⟨u, rfl⟩
                have humem : u ∈ ws := List.mem_of_mem_getLast? hu
                have huspace : pyIsSpace u = true := by
                  rw [hWs] at humem
                  exact List.mem_takeWhile_imp humem
                have hlast : (kw ++ ws ++ []).getLast? = some u := by
                  rw [List.append_nil, List.getLast?_append, hu]
                  rfl
                rw [hlast]
                simp [boundaryBefore, isWordChar_eq_false_of_space u huspace]
              · have hlast : (kw ++ ws ++ pre).getLast? = some d := by
                  rw [List.getLast?_append, hd]
                  rfl
                rw [hlast]
                simp [boundaryBefore, isWordChar_eq_false_of_dot d hd46]
            rw [← hs]
            exact wordSearchAux_of_split _ _ _ prev hlne hLbound hRbound
          · have hrec := ih ident.getLast? tail name hmem' hlne hword
            have hlast : ident.getLast? = some (ident.getLast hwi.2) :=
              List.getLast?_eq_getLast _ _
            rw [hlast] at hrec
            have hdec : ident.dropLast ++ [ident.getLast hwi.2] = ident :=
              List.dropLast_append_getLast _
            have hs2 : (kw ++ ws ++ ident.dropLast) ++ (ident.getLast hwi.2) :: tail =
                c :: rest := by
              calc (kw ++ ws ++ ident.dropLast) ++ (ident.getLast hwi.2) :: tail
                  = kw ++ (ws ++ ((ident.dropLast ++ [ident.getLast hwi.2]) ++ tail)) := by
                    simp [List.append_assoc]
                _ = kw ++ (ws ++ (ident ++ tail)) := by rw [hdec]
                _ = kw ++ (ws ++ rest2) := by rw [hR3]
                _ = kw ++ afterKw := by rw [hA2]
                _ = c :: rest := hKA
            rw [← hs2]
            exact wordSearchAux_append_cons _ _ _ _ prev hrec
        · rw [if_neg hwi] at hmem
          have hrec := ih (some c) rest name hmem hlne hword
          exact wordSearchAux_append_cons _ [] c rest prev hrec
      · rw [if_neg hb] at hmem
        have hrec := ih (some c) rest name hmem hlne hword
        exact wordSearchAux_append_cons _ [] c rest prev hrec

/-! Claim theorems. -/

/-- Claim C1: every statement that begins (after optional leading whitespace,
case-insensitively) with one of the read-only prefixes select / with / show /
describe / explain but contains a denylist keyword (insert, update, delete,
drop, alter, truncate, create, grant, revoke) anywhere in its lower-cased
text — including inside string literals, comments, or longer identifiers — is
classified not read-only by `is_read_only_sql`. -/
theorem readOnly_rejects_forbidden_keyword (sql kw : List Char)
    (hstart : READ_ONLY_KEYWORDS.any (fun k => matchStartKw k (pyLower (pyStrip sql))) = true)
    (hkw : kw ∈ FORBIDDEN_KEYWORDS)
    (hinf : isSubstring kw (pyLower sql) = true) :
    is_read_only_sql sql = false := by
  have hspace : ∀ c ∈ kw, pyIsSpace c = false := by
    fin_cases hkw <;> decide
  have hne : kw ≠ [] := by
    fin_cases hkw <;> decide
  have h1 : kw <:+: pyLower sql := (isSubstring_iff _ _).mp hinf
  have h2 : kw <:+: pyLower (pyStrip sql) := by
    rw [← pyStrip_pyLower]
    exact infix_pyStrip _ _ hspace hne h1
  have h3 : FORBIDDEN_KEYWORDS.any (fun f => isSubstring f (pyLower (pyStrip sql))) = true :=
    List.any_eq_true.mpr ⟨kw, hkw, (isSubstring_iff _ _).mpr h2⟩
  unfold is_read_only_sql
  split
  · rfl
  · simp only [hstart, h3, if_true, Bool.not_true, if_pos]

/-- Witness for C1: the spec's own example `"select 1; drop table orders"`
is rejected. -/
theorem readOnly_rejects_forbidden_keyword_witness :
    is_read_only_sql (pyStr "select 1; drop table orders") = false :=
  readOnly_rejects_forbidden_keyword (pyStr "select 1; drop table orders") (pyStr "drop")
    (by decide) (by decide) (by decide)

/-- Claim C2: every statement whose stripped, lower-cased text does not start
with one of the five read-only prefixes (at a word boundary) is classified not
read-only; in particular empty and blank input are not read-only, and a
statement merely containing `select` elsewhere satisfies the hypothesis. -/
theorem readOnly_requires_leading_prefix (sql : List Char)
    (hstart : ∀ kw ∈ READ_ONLY_KEYWORDS, matchStartKw kw (pyLower (pyStrip sql)) = false) :
    is_read_only_sql sql = false ∧ is_read_only_sql [] = false ∧
      is_read_only_sql (pyStr "   ") = false := by
  refine ⟨?_, by decide, by decide⟩
  unfold is_read_only_sql
  split
  · rfl
  · have hany : READ_ONLY_KEYWORDS.any
        (fun kw => matchStartKw kw (pyLower (pyStrip sql))) = false := by
      rw [List.any_eq_false]
      intro k hk
      simp [hstart k hk]
    simp only [hany, Bool.false_eq_true, if_false]

/-- Witness for C2: a mutating statement that contains `select` only inside a
subquery does not start with a read-only prefix and is rejected. -/
theorem readOnly_requires_leading_prefix_witness :
    is_read_only_sql (pyStr "delete from orders where id in (select 1)") = false ∧
      is_read_only_sql [] = false ∧ is_read_only_sql (pyStr "   ") = false :=
  readOnly_requires_leading_prefix (pyStr "delete from orders where id in (select 1)")
    (by decide)

/-- Claim C3: every statement the gate rejects — empty or whitespace-only
input, read-only check failure, or table allow-list failure — produces the
corresponding rejection message with no database connection acquired, and the
outcome is independent of the store oracle: the rejected statement never
reaches the store. -/
theorem rejected_never_reaches_store (sql : List Char)
    (hrej : pyStrip sql = [] ∨ is_read_only_sql sql = false ∨
      only_allowed_tables sql = false) :
    ∀ db db' : List Char → DbResponse,
      (run_sql_async db sql).2 = false ∧
      run_sql_async db sql = run_sql_async db' sql ∧
      (pyStrip sql = [] →
        (run_sql_async db sql).1 = .ok (.message (pyStr "No SQL query provided"))) ∧
      (pyStrip sql ≠ [] → is_read_only_sql sql = false →
        (run_sql_async db sql).1 = .ok (.message
          (pyStr "This operation will not be performed (non-read-only query detected)."))) ∧
      (pyStrip sql ≠ [] → is_read_only_sql sql = true → only_allowed_tables sql = false →
        (run_sql_async db sql).1 = .ok (.message
          (pyStr "Query references invalid or disallowed tables."))) := by
  intro db db'
  by_cases h1 : pyStrip sql = []
  · have hc : sql = [] ∨ pyStrip sql = [] := Or.inr h1
    simp [run_sql_async, hc, h1]
  · have hc : ¬ (sql = [] ∨ pyStrip sql = []) := by
      rintro (rfl | h)
      · exact h1 rfl
      · exact h1 h
    have hsql : sql ≠ [] := by
      rintro rfl
      exact h1 rfl
    by_cases h2 : is_read_only_sql sql = false
    · simp [run_sql_async, hc, h2, h1, hsql]
    · have h2t : is_read_only_sql sql = true := by
        cases h : is_read_only_sql sql
        · exact absurd h h2
        · rfl
      have h3 : only_allowed_tables sql = false := by
        rcases hrej with h | h | h
        · exact absurd h h1
        · exact absurd h h2
        · exact h
      simp [run_sql_async, hc, h2t, h3, h1, hsql]

/-- Witness for C3: a non-read-only statement is rejected without the store
being consulted, for two different store oracles. -/
theorem rejected_never_reaches_store_witness :
    (run_sql_async dbEmpty (pyStr "drop table orders")).2 = false ∧
      run_sql_async dbEmpty (pyStr "drop table orders") =
        run_sql_async (fun _ => DbResponse.fail (pyStr "boom")) (pyStr "drop table orders") :=
  ⟨(rejected_never_reaches_store (pyStr "drop table orders") (by decide) dbEmpty
      (fun _ => DbResponse.fail (pyStr "boom"))).1,
    (rejected_never_reaches_store (pyStr "drop table orders") (by decide) dbEmpty
      (fun _ => DbResponse.fail (pyStr "boom"))).2.1⟩

/-- Claim C4: every statement whose extracted `from`/`join` targets form a
non-empty collection all of whose final dot-segments (case-insensitively,
after quote removal and optional schema qualification) are allow-listed tables
passes `only_allowed_tables`; and `"SELECT * FROM users"` fails the check. -/
theorem tableCheck_passes_on_allowed_targets (sql : List Char)
    (hne : extractTargets (pyStr "from") (stripQuotes (pyLower sql)) ++
      extractTargets (pyStr "join") (stripQuotes (pyLower sql)) ≠ [])
    (hall : ∀ name ∈ extractTargets (pyStr "from") (stripQuotes (pyLower sql)) ++
      extractTargets (pyStr "join") (stripQuotes (pyLower sql)),
      lastSegment name ∈ ALLOWED_TABLES) :
    only_allowed_tables sql = true ∧ only_allowed_tables (pyStr "SELECT * FROM users") = false := by
  refine ⟨?_, by decide⟩
  have hsql : sql ≠ [] := by
    rintro rfl
    exact hne rfl
  obtain ⟨name, hmem⟩ := List.exists_mem_of_ne_nil _ hne
  have htab := hall name hmem
  have hcomb : lastSegment name ≠ [] ∧ ∀ c ∈ lastSegment name, isWordChar c = true := by
    have h5 : lastSegment name = pyStr "orders" ∨ lastSegment name = pyStr "order_details" ∨
        lastSegment name = pyStr "products" ∨ lastSegment name = pyStr "categories" ∨
        lastSegment name = pyStr "customers" := by
      simpa [ALLOWED_TABLES] using htab
    rcases h5 with h | h | h | h | h <;> rw [h] <;> exact ⟨by decide, by decide⟩
  have hws : wordSearch (lastSegment name) (stripQuotes (pyLower sql)) = true := by
    rcases List.mem_append.mp hmem with h | h
    · exact scan_target_wordSearch (pyStr "from") _ none _ name h hcomb.1 hcomb.2
    · exact scan_target_wordSearch (pyStr "join") _ none _ name h hcomb.1 hcomb.2
  have hany : ALLOWED_TABLES.any (fun t => wordSearch t (stripQuotes (pyLower sql))) = true :=
    List.any_eq_true.mpr ⟨lastSegment name, htab, hws⟩
  have hall2 : (extractTargets (pyStr "from") (stripQuotes (pyLower sql)) ++
      extractTargets (pyStr "join") (stripQuotes (pyLower sql))).all
        (fun n => decide (lastSegment n ∈ ALLOWED_TABLES)) = true := by
    rw [List.all_eq_true]
    intro x hx
    simpa using hall x hx
  simp only [only_allowed_tables, hsql, if_neg, hany, Bool.not_true, Bool.and_false,
    Bool.false_eq_true, if_false, hall2]

/-- Witness for C4: a statement joining two allow-listed tables passes the
check, while `"SELECT * FROM users"` fails it. -/
theorem tableCheck_passes_on_allowed_targets_witness :
    only_allowed_tables (pyStr "select * from orders join db1.order_details") = true ∧
      only_allowed_tables (pyStr "SELECT * FROM users") = false :=
  tableCheck_passes_on_allowed_targets (pyStr "select * from orders join db1.order_details")
    (by decide) (by decide)

/-- Claim C5: the table allow-list check is unsound for comma-separated FROM
lists — in `"select * from orders, users"` the identifier extraction captures
only `orders`, the whole-word short circuit is satisfied by `orders`, and both
checks pass even though `users` occurs as a whole word and is not
allow-listed; the full gate lets the statement reach the store. -/
theorem comma_list_bypasses_table_check :
    is_read_only_sql (pyStr "select * from orders, users") = true ∧
      only_allowed_tables (pyStr "select * from orders, users") = true ∧
      wordSearch (pyStr "users")
        (stripQuotes (pyLower (pyStr "select * from orders, users"))) = true ∧
      (pyStr "users") ∉ ALLOWED_TABLES ∧
      extractTargets (pyStr "from")
        (stripQuotes (pyLower (pyStr "select * from orders, users"))) = [pyStr "orders"] ∧
      (run_sql_async dbEmpty (pyStr "select * from orders, users")).2 = true :=
  ⟨by decide, by decide, by decide, by decide, by decide, rfl⟩


/-- Counterexample for C6: at a concrete approved statement whose execution
fails, `run_sql_async` does not return a structured result — it raises
(`database.py` line 101 re-raises `Exception("Database error: ...")`), so the
failure crosses the Guard's boundary as an exception, contradicting the claim
that it is returned as a structured `DatabaseError` value. -/
theorem dbError_raised_at_concrete_input :
    raisesException
        (run_sql_async (fun _ => .fail (pyStr "boom")) (pyStr "select * from orders")) = true ∧
      (run_sql_async (fun _ => .fail (pyStr "boom")) (pyStr "select * from orders")).1 =
        .error (pyStr "Database error: boom") :=
  ⟨rfl, rfl⟩

/-- Amended C6: when an approved statement's connection or execution fails,
`run_sql_async` raises an exception wrapping the store's message as
`"Database error: " + msg` — an outcome distinct from the two rejection kinds,
which are returned (not raised) message values produced without touching the
store; the caller must catch the exception. -/
theorem dbError_wraps_failure (sql e : List Char)
    (hne : pyStrip sql ≠ [])
    (hro : is_read_only_sql sql = true)
    (htab : only_allowed_tables sql = true)
    (db : List Char → DbResponse) (hdb : db sql = .fail e) :
    run_sql_async db sql = (.error (pyStr "Database error: " ++ e), true) := by
  have hc : ¬ (sql = [] ∨ pyStrip sql = []) := by
    rintro (rfl | h)
    · exact hne rfl
    · exact hne h
  simp [run_sql_async, hc, hro, htab, hdb]

/-- Witness for the amended C6. -/
theorem dbError_wraps_failure_witness :
    run_sql_async (fun _ => DbResponse.fail (pyStr "boom")) (pyStr "select * from orders") =
      (.error (pyStr "Database error: boom"), true) :=
  dbError_wraps_failure (pyStr "select * from orders") (pyStr "boom") (by decide) (by decide)
    (by decide) _ rfl

/-- Claim C7 (code bug): `run_sql_async` returns fetched rows exactly as the
store produced them — `_json_sanitize` (`database.py` lines 50-55) is never
called — so at this approved, successfully executed statement a `Decimal`
scalar survives as a `Decimal` and a date survives as a date, instead of being
normalized to a floating-point number and an ISO-8601 string. -/
theorem rows_returned_unnormalized :
    run_sql_async
        (fun _ => .ok [pyStr "unit_price", pyStr "order_date"]
          [[(pyStr "unit_price", .vDecimal (21 / 2)), (pyStr "order_date", .vDate 1996 7 4)]])
        (pyStr "select unit_price from order_details") =
      (.ok (.resultSet [pyStr "unit_price", pyStr "order_date"]
        [[(pyStr "unit_price", .vDecimal (21 / 2)), (pyStr "order_date", .vDate 1996 7 4)]]),
        true) :=
  rfl

/-- Claim C8: the Guard's classification is deterministic — both classifiers
are pure functions of the statement text, so calling either twice on the
identical string (with the fixed allow-list unchanged) yields identical
results. -/
theorem guard_classification_deterministic (sql : List Char) :
    is_read_only_sql sql = is_read_only_sql sql ∧
      only_allowed_tables sql = only_allowed_tables sql :=
  ⟨rfl, rfl⟩

/-- Claim C10: both classifiers are total on arbitrary input — each terminates
and returns one of the two booleans on every string — and the table checker
returns `false` on the empty string. -/
theorem classifiers_total (sql : List Char) :
    (is_read_only_sql sql = true ∨ is_read_only_sql sql = false) ∧
      (only_allowed_tables sql = true ∨ only_allowed_tables sql = false) ∧
      only_allowed_tables [] = false := by
  refine ⟨?_, ?_, by decide⟩
  · cases is_read_only_sql sql
    · exact Or.inr rfl
    · exact Or.inl rfl
  · cases only_allowed_tables sql
    · exact Or.inr rfl
    · exact Or.inl rfl

end SqlGuard
